import Mathlib

/-!
Verification of the tatty screen controller (src/index.js).

The embedding models the text-buffer and cursor state machine of the
`Screen` class: lines are records of text content plus a prompt flag
(standing for the `prompt` CSS class on the line's div), the cursor is a
pair of integers (`(-1,-1)` is the empty-buffer sentinel), and `cols` is
the fixed column width from `opts`.  JavaScript strings are modelled as
`List Char`; an out-of-range array access followed by a property read
(which throws a `TypeError` in the source) is modelled by `Option`,
with `none` standing for the thrown error.
-/

namespace Tatty

/-- A buffer line: the div's `textContent` together with whether its
`className` contains `prompt`. -/
structure Line where
  textContent : List Char
  isPrompt : Bool
deriving DecidableEq, Repr

/-- The cursor position (`Point` in src/utils). Coordinates are integers;
`(-1,-1)` is the empty-buffer sentinel. -/
structure Point where
  x : Int
  y : Int
deriving DecidableEq, Repr

/-- The screen state: the `lines` array, the `cursor`, and `opts.cols`. -/
structure Screen where
  lines : List Line
  cursor : Point
  cols : Nat
deriving DecidableEq, Repr

/-- A freshly created line (`createLine`): empty content, no prompt class. -/
def emptyLine : Line := ⟨[], false⟩

/-- JavaScript array access `this.lines[y]` for an integer index, followed
by a property read: `none` models the `TypeError` thrown on `undefined`. -/
def getLine (s : Screen) (y : Int) : Option Line :=
  if y < 0 then none else s.lines.get? y.toNat

/-! ### splitLine (the LineWrapper)

`findLastSpacePosition(start)` scans backward from index `start`
(inclusive) for a space and returns its index, or `opts.cols` when no
space exists at indices `0..start`.  The `while` loop of `splitLine`
strips a line's worth of characters per iteration; each iteration
consumes at least one character, so the source string's length bounds
the number of iterations and serves as structural fuel. -/

/-- Backward scan from index `n` (inclusive) for the greatest index
holding a space character; `none` when there is no space at `0..n`. -/
def findSpaceFrom (chars : List Char) : Nat → Option Nat
  | 0 => if chars.get? 0 = some ' ' then some 0 else none
  | n + 1 => if chars.get? (n + 1) = some ' ' then some (n + 1)
             else findSpaceFrom chars n

/-- `findLastSpacePosition` of the source: the backward scan from `cols`,
returning `cols` itself when no space is found. -/
def findLastSpacePosition (chars : List Char) (cols : Nat) : Nat :=
  (findSpaceFrom chars cols).getD cols

/-- The `while` loop of `splitLine`: while more than `cols` characters
remain, `strip(0, findLastSpacePosition(cols))` pushes
`chars.take brk` and continues on `chars.drop (brk + 1)` (the `+ 1`
is `strip`'s unconditional consumption of the character at the break
index).  `fuel` bounds the iteration count; it never runs out when
started at `chars.length` because every iteration consumes at least
one character. -/
def splitLoop (cols : Nat) : Nat → List Char → List (List Char)
  | 0, chars => [chars]
  | fuel + 1, chars =>
    if chars.length ≤ cols then [chars]
    else
      let brk := findLastSpacePosition chars cols
      chars.take brk :: splitLoop cols fuel (chars.drop (brk + 1))

/-- `splitLine` of the source: a single short line is returned whole,
otherwise the strip loop runs and the remainder is pushed last. -/
def splitLine (cols : Nat) (chars : List Char) : List (List Char) :=
  if chars.length ≤ cols then [chars]
  else splitLoop cols chars.length chars

/-- The characters consumed (and discarded) at the break points of
`splitLine`: the space found by the backward scan, or — in the hard-cut
case — whatever character sits at index `cols`.  Follows the recursion
of `splitLoop` exactly. -/
def droppedChars (cols : Nat) : Nat → List Char → List Char
  | 0, _ => []
  | fuel + 1, chars =>
    if chars.length ≤ cols then []
    else
      let brk := findLastSpacePosition chars cols
      (chars.drop brk).take 1 ++ droppedChars cols fuel (chars.drop (brk + 1))

/-- The break-point characters consumed by `splitLine cols chars`. -/
def droppedCharsOf (cols : Nat) (chars : List Char) : List Char :=
  droppedChars cols chars.length chars

/-! ### Controller operations -/

/-- `appendLine(div, position)`: push when `position` is past the end,
otherwise splice the line in at `position` (shifting later lines down). -/
def appendLine (lines : List Line) (l : Line) (position : Int) : List Line :=
  if position > (lines.length : Int) then lines ++ [l]
  else lines.insertIdx position.toNat l

/-- The reflow loop at the end of `write`: for each wrapped line, create a
fresh (non-prompt) div, `appendLine` it at `cursor.y`, increment
`cursor.y` and recompute `cursor.x` as the wrapped line's length minus
the trailing offset. -/
def reflowLoop (offset : Nat) :
    List (List Char) → List Line → Int → Int → List Line × Int × Int
  | [], lines, y, x => (lines, y, x)
  | nl :: rest, lines, y, _ =>
    reflowLoop offset rest (appendLine lines ⟨nl, false⟩ y) (y + 1)
      ((nl.length : Int) - (offset : Int))

/-- `write(chars)`: no-op on empty input; bootstrap the first line at the
`(-1,-1)` sentinel; create missing lines when `cursor.y > lines.length`;
pad the target line with spaces when `cursor.x` exceeds its length;
splice `chars` in at `cursor.x`; replace in place when the result fits in
`cols`, otherwise remove the line and reflow via `splitLine`. -/
def write (s0 : Screen) (chars : List Char) : Option Screen :=
  if chars = [] then some s0
  else
    let s1 := if s0.cursor.x < 0 then
        { s0 with lines := s0.lines ++ [emptyLine], cursor := ⟨0, 0⟩ }
      else s0
    let s := if s1.cursor.y > (s1.lines.length : Int) then
        { s1 with lines := s1.lines ++
            List.replicate ((s1.cursor.y - s1.lines.length).toNat + 1) emptyLine }
      else s1
    (getLine s s.cursor.y).bind fun line =>
      let contents0 := line.textContent
      let contents := if s.cursor.x > (contents0.length : Int) then
          contents0 ++ List.replicate (s.cursor.x - contents0.length).toNat ' '
        else contents0
      let xn := s.cursor.x.toNat
      let newline := contents.take xn ++ chars ++ contents.drop xn
      let offset := contents.length - xn
      let newX : Int := s.cursor.x + chars.length
      if newline.length ≤ s.cols then
        some { s with
          lines := s.lines.set s.cursor.y.toNat { line with textContent := newline },
          cursor := { s.cursor with x := newX } }
      else
        let newlines := splitLine s.cols newline
        let lines1 := s.lines.eraseIdx s.cursor.y.toNat
        let r := reflowLoop offset newlines lines1 s.cursor.y newX
        some { s with lines := r.1, cursor := ⟨r.2.2, r.2.1 - 1⟩ }

/-- `writechar(chars)`: no-op on empty input; same sentinel bootstrap as
`write`; start a new line first when `cursor.x ≥ cols`; then delegate the
first character to `write`. -/
def writechar (s0 : Screen) (chars : List Char) : Option Screen :=
  if chars = [] then some s0
  else
    let s1 := if s0.cursor.x < 0 then
        { s0 with lines := s0.lines ++ [emptyLine], cursor := ⟨0, 0⟩ }
      else s0
    let s := if s1.cursor.x ≥ (s1.cols : Int) then
        { s1 with lines := s1.lines ++ [emptyLine],
                  cursor := ⟨0, s1.cursor.y + 1⟩ }
      else s1
    write s (chars.take 1)

/-- The loop of `writeln`: append each wrapped line as a fresh div and set
`cursor.x` to its length. -/
def writelnLoop : List (List Char) → List Line → Int → List Line × Int
  | [], lines, x => (lines, x)
  | nl :: rest, lines, _ => writelnLoop rest (lines ++ [⟨nl, false⟩]) (nl.length : Int)

/-- `writeln(chars)`: empty input appends one empty line and homes the
cursor to it; otherwise the input is wrapped and each wrapped line is
appended, with `cursor.y` finally set to the last index. -/
def writeln (s : Screen) (chars : List Char) : Screen :=
  if chars = [] then
    let lines1 := s.lines ++ [emptyLine]
    { s with lines := lines1, cursor := ⟨0, (lines1.length : Int) - 1⟩ }
  else
    let r := writelnLoop (splitLine s.cols chars) s.lines s.cursor.x
    { s with lines := r.1, cursor := ⟨r.2, (r.1.length : Int) - 1⟩ }

/-- `prompt()`: append a line tagged `prompt` whose content is the
three-space placeholder, and put the cursor at column 3 of it. -/
def prompt (s : Screen) : Screen :=
  let lines1 := s.lines ++ [⟨List.replicate 3 ' ', true⟩]
  { s with lines := lines1, cursor := ⟨3, (lines1.length : Int) - 1⟩ }

/-- The unconditional tail of `del()`: chop the last character of the
current line and decrement `cursor.x`. -/
def delCore (s : Screen) : Option Screen :=
  (getLine s s.cursor.y).bind fun line =>
    some { s with
      lines := s.lines.set s.cursor.y.toNat
        { line with textContent := line.textContent.dropLast },
      cursor := { s.cursor with x := s.cursor.x - 1 } }

/-- `del()`: no-op at column 3 of a prompt line; at `cursor.x = 0` it
returns at `cursor.y = 0`, otherwise moves to the end of the previous
line and falls through to the character-chopping tail. -/
def del (s : Screen) : Option Screen :=
  (getLine s s.cursor.y).bind fun line =>
    if line.isPrompt ∧ s.cursor.x = 3 then some s
    else if s.cursor.x = 0 then
      if s.cursor.y = 0 then some s
      else
        (getLine s (s.cursor.y - 1)).bind fun prev =>
          delCore { s with
            cursor := ⟨(prev.textContent.length : Int), s.cursor.y - 1⟩ }
    else delCore s

/-- `deleteln(num)`: no-op on an empty buffer; a falsy `num` (absent or
zero) or a `num` at or past the length removes the last line; a negative
`num` hits `removeChild(undefined)` and throws; otherwise the line at
`num` is spliced out. -/
def deleteln (s : Screen) (num : Option Int) : Option Screen :=
  if s.lines.length = 0 then some s
  else
    match num with
    | none => some { s with lines := s.lines.eraseIdx (s.lines.length - 1) }
    | some n =>
      if n = 0 ∨ n ≥ (s.lines.length : Int) then
        some { s with lines := s.lines.eraseIdx (s.lines.length - 1) }
      else if n < 0 then none
      else some { s with lines := s.lines.eraseIdx n.toNat }

/-- `clear()`: empty the buffer and reset the cursor to the sentinel. -/
def clear (s : Screen) : Screen :=
  { s with lines := [], cursor := ⟨-1, -1⟩ }

/-! ### Lemmas about the wrap algorithm -/

lemma findSpaceFrom_le (chars : List Char) :
    ∀ n j, findSpaceFrom chars n = some j → j ≤ n := by
  intro n
  induction n with
  | zero =>
    intro j h
    unfold findSpaceFrom at h
    by_cases hc : chars.get? 0 = some ' '
    · rw [if_pos hc] at h
      injection h with h
      omega
    · rw [if_neg hc] at h
      exact Option.noConfusion h
  | succ n ih =>
    intro j h
    unfold findSpaceFrom at h
    by_cases hc : chars.get? (n + 1) = some ' '
    · rw [if_pos hc] at h
      injection h with h
      omega
    · rw [if_neg hc] at h
      exact Nat.le_succ_of_le (ih j h)

lemma findLastSpacePosition_le (chars : List Char) (cols : Nat) :
    findLastSpacePosition chars cols ≤ cols := by
  unfold findLastSpacePosition
  cases h : findSpaceFrom chars cols with
  | none => simp
  | some j => simpa using findSpaceFrom_le chars cols j h

lemma findSpaceFrom_eq_none (chars : List Char) :
    ∀ n, (∀ i, i ≤ n → chars.get? i ≠ some ' ') → findSpaceFrom chars n = none := by
  intro n
  induction n with
  | zero =>
    intro h
    unfold findSpaceFrom
    rw [if_neg (h 0 (Nat.le_refl 0))]
  | succ n ih =>
    intro h
    unfold findSpaceFrom
    rw [if_neg (h (n + 1) (Nat.le_refl _))]
    exact ih fun i hi => h i (Nat.le_succ_of_le hi)

lemma splitLoop_congr (cols : Nat) :
    ∀ f₁ f₂ chars, chars.length ≤ f₁ → chars.length ≤ f₂ →
      splitLoop cols f₁ chars = splitLoop cols f₂ chars := by
  intro f₁
  induction f₁ with
  | zero =>
    intro f₂ chars h1 _
    have hc : chars = [] := List.eq_nil_of_length_eq_zero (Nat.le_zero.mp h1)
    subst hc
    cases f₂ with
    | zero => rfl
    | succ m => simp [splitLoop]
  | succ n ih =>
    intro f₂ chars h1 h2
    cases f₂ with
    | zero =>
      have hc : chars = [] := List.eq_nil_of_length_eq_zero (Nat.le_zero.mp h2)
      subst hc
      simp [splitLoop]
    | succ m =>
      by_cases hle : chars.length ≤ cols
      · simp [splitLoop, if_pos hle]
      · simp only [splitLoop, if_neg hle]
        congr 1
        have hb : findLastSpacePosition chars cols + 1 ≥ 1 := Nat.le_add_left _ _
        apply ih
        · rw [List.length_drop]
          omega
        · rw [List.length_drop]
          omega

lemma splitLine_eq_loop (cols : Nat) (chars : List Char) :
    splitLine cols chars = splitLoop cols chars.length chars := by
  unfold splitLine
  by_cases h : chars.length ≤ cols
  · rw [if_pos h]
    cases chars with
    | nil => rfl
    | cons a t =>
      simp only [List.length_cons, splitLoop]
      rw [if_pos (by simpa using h)]
  · rw [if_neg h]

lemma splitLoop_ne_nil (cols fuel : Nat) (chars : List Char) :
    splitLoop cols fuel chars ≠ [] := by
  cases fuel with
  | zero => simp [splitLoop]
  | succ n =>
    by_cases h : chars.length ≤ cols <;> simp [splitLoop, h]

lemma splitLoop_length_le (cols : Nat) :
    ∀ fuel chars, chars.length ≤ fuel →
      ∀ l ∈ splitLoop cols fuel chars, l.length ≤ cols := by
  intro fuel
  induction fuel with
  | zero =>
    intro chars h l hl
    have hc : chars = [] := List.eq_nil_of_length_eq_zero (Nat.le_zero.mp h)
    subst hc
    simp only [splitLoop, List.mem_singleton] at hl
    subst hl
    simp
  | succ n ih =>
    intro chars h l hl
    by_cases hle : chars.length ≤ cols
    · simp only [splitLoop, if_pos hle, List.mem_singleton] at hl
      subst hl
      exact hle
    · simp only [splitLoop, if_neg hle, List.mem_cons] at hl
      rcases hl with rfl | hl
      · rw [List.length_take]
        exact le_trans (Nat.min_le_left _ _) (findLastSpacePosition_le chars cols)
      · refine ih _ ?_ l hl
        rw [List.length_drop]
        omega

lemma splitLine_length_le (cols : Nat) (chars : List Char) :
    ∀ l ∈ splitLine cols chars, l.length ≤ cols := by
  rw [splitLine_eq_loop]
  exact splitLoop_length_le cols chars.length chars (Nat.le_refl _)

lemma intercalate_cons_of_ne_nil (sep a : List Char) (l : List (List Char))
    (h : l ≠ []) :
    List.intercalate sep (a :: l) = a ++ sep ++ List.intercalate sep l := by
  cases l with
  | nil => exact absurd rfl h
  | cons b t => simp [List.intercalate]

lemma splitLoop_reconstruct (cols : Nat) :
    ∀ fuel chars, chars.length ≤ fuel →
      (∀ c ∈ droppedChars cols fuel chars, c = ' ') →
      List.intercalate [' '] (splitLoop cols fuel chars) = chars := by
  intro fuel
  induction fuel with
  | zero =>
    intro chars h _
    have hc : chars = [] := List.eq_nil_of_length_eq_zero (Nat.le_zero.mp h)
    subst hc
    simp [splitLoop, List.intercalate]
  | succ n ih =>
    intro chars h hsp
    by_cases hle : chars.length ≤ cols
    · simp [splitLoop, if_pos hle, List.intercalate]
    · have hbrk : findLastSpacePosition chars cols < chars.length :=
        lt_of_le_of_lt (findLastSpacePosition_le chars cols) (Nat.not_le.mp hle)
      have hdrop : chars.drop (findLastSpacePosition chars cols) =
          chars.get ⟨findLastSpacePosition chars cols, hbrk⟩ ::
            chars.drop (findLastSpacePosition chars cols + 1) :=
        List.drop_eq_getElem_cons hbrk
      have hc : chars.get ⟨findLastSpacePosition chars cols, hbrk⟩ = ' ' := by
        apply hsp
        simp only [droppedChars, if_neg hle, List.mem_append]
        left
        have h1 : List.take 1 (List.drop (findLastSpacePosition chars cols) chars) =
            [chars.get ⟨findLastSpacePosition chars cols, hbrk⟩] := by
          rw [hdrop]
          rfl
        rw [h1]
        simp
      have hrest : ∀ c ∈ droppedChars cols n
          (chars.drop (findLastSpacePosition chars cols + 1)), c = ' ' := by
        intro c hcmem
        apply hsp
        simp only [droppedChars, if_neg hle, List.mem_append]
        right
        exact hcmem
      have hlen : (chars.drop (findLastSpacePosition chars cols + 1)).length ≤ n := by
        rw [List.length_drop]
        omega
      simp only [splitLoop, if_neg hle]
      rw [intercalate_cons_of_ne_nil _ _ _ (splitLoop_ne_nil cols n _)]
      rw [ih _ hlen hrest]
      calc chars.take (findLastSpacePosition chars cols) ++ [' '] ++
            chars.drop (findLastSpacePosition chars cols + 1)
          = chars.take (findLastSpacePosition chars cols) ++
              ([' '] ++ chars.drop (findLastSpacePosition chars cols + 1)) := by
            rw [List.append_assoc]
        _ = chars.take (findLastSpacePosition chars cols) ++
              chars.drop (findLastSpacePosition chars cols) := by
            rw [hdrop, hc]
            rfl
        _ = chars := List.take_append_drop _ _

/-- Boolean form of the per-line width bound. -/
def fitsWidth (width : Nat) (l : List Char) : Bool :=
  decide (l.length ≤ width)

/-! ### Claims about the wrap algorithm -/

/-- C4, counterexample: joining `wrap("aaaaa", 4)` with single spaces does
not reconstruct the input with only break-point whitespace removed — the
hard cut drops the non-space character at index 4, so the join differs
from the input (which contains no whitespace to remove) and a non-space
character of the input is lost. -/
theorem C4_counterexample :
    List.intercalate [' '] (splitLine 4 ['a', 'a', 'a', 'a', 'a']) ≠
      ['a', 'a', 'a', 'a', 'a'] ∧
    (List.intercalate [' '] (splitLine 4 ['a', 'a', 'a', 'a', 'a'])).filter
        (fun c => c != ' ') ≠
      (['a', 'a', 'a', 'a', 'a'] : List Char).filter (fun c => c != ' ') := by
  decide

/-- C4, amended: for every string `s` and `width > 0`, if every character
consumed at a break point is a space, then joining the elements of
`wrap(s, width)` with single spaces reconstructs `s` exactly; in the
hard-cut case the consumed break character can be a non-space character,
which is then lost. -/
theorem C4_wrap_rejoin (s : List Char) (width : Nat) (_hw : 0 < width)
    (hsp : ∀ c ∈ droppedCharsOf width s, c = ' ') :
    List.intercalate [' '] (splitLine width s) = s := by
  rw [splitLine_eq_loop]
  exact splitLoop_reconstruct width s.length s (Nat.le_refl _) hsp

/-- C4, witness: rejoining the wrap of `"ab cd ef"` at width 4, whose
break points all consume spaces, reproduces the input. -/
theorem C4_wrap_rejoin_witness :
    List.intercalate [' ']
        (splitLine 4 ['a', 'b', ' ', 'c', 'd', ' ', 'e', 'f']) =
      ['a', 'b', ' ', 'c', 'd', ' ', 'e', 'f'] :=
  C4_wrap_rejoin ['a', 'b', ' ', 'c', 'd', ' ', 'e', 'f'] 4 (by decide) (by decide)

/-- C5: whenever the backward scan from index `width` finds no space, the
emitted line is exactly the first `width` characters and `width + 1`
characters are consumed from the front; and consequently
`wrap("aaaaaaaaaa", 4)` is `["aaaa", "aaaa", ""]`, with an empty trailing
line because 10 is an exact multiple of the cut boundary 5. -/
theorem C5_hard_cut :
    (∀ (s : List Char) (width : Nat), width < s.length →
      (∀ i, i ≤ width → s.get? i ≠ some ' ') →
      splitLine width s = s.take width :: splitLine width (s.drop (width + 1))) ∧
    splitLine 4 ['a', 'a', 'a', 'a', 'a', 'a', 'a', 'a', 'a', 'a'] =
      [['a', 'a', 'a', 'a'], ['a', 'a', 'a', 'a'], []] := by
  constructor
  · intro s width hlen hsp
    have hfl : findLastSpacePosition s width = width := by
      unfold findLastSpacePosition
      rw [findSpaceFrom_eq_none s width hsp]
      rfl
    rw [splitLine_eq_loop, splitLine_eq_loop]
    obtain ⟨m, hm⟩ : ∃ m, s.length = m + 1 := ⟨s.length - 1, by omega⟩
    rw [hm]
    simp only [splitLoop]
    rw [if_neg (by omega)]
    simp only [hfl]
    congr 1
    apply splitLoop_congr
    · rw [List.length_drop]
      omega
    · exact Nat.le_refl _
  · decide

/-- C5, witness: the hard-cut unfolding at the concrete space-free input
`"bbbbbb"` with width 4. -/
theorem C5_hard_cut_witness :
    splitLine 4 ['b', 'b', 'b', 'b', 'b', 'b'] =
      (['b', 'b', 'b', 'b', 'b', 'b'] : List Char).take 4 ::
        splitLine 4 ((['b', 'b', 'b', 'b', 'b', 'b'] : List Char).drop 5) :=
  C5_hard_cut.1 ['b', 'b', 'b', 'b', 'b', 'b'] 4 (by decide) (by decide)

/-- C9: for every string `s` and `width > 0`, `wrap(s, width)` terminates —
the embedding is total and each loop iteration strictly shrinks the
remaining text (on nonempty input) — and every element except possibly
the last has length at most `width`. -/
theorem C9_wrap_terminates_bounded (s : List Char) (width : Nat) (_hw : 0 < width) :
    ((splitLine width s).dropLast.all (fitsWidth width)) = true ∧
    (s.length = 0 ∨
      (s.drop (findLastSpacePosition s width + 1)).length < s.length) := by
  constructor
  · rw [List.all_eq_true]
    intro l hl
    rw [fitsWidth, decide_eq_true_eq]
    exact splitLine_length_le width s l (List.dropLast_subset _ hl)
  · rcases Nat.eq_zero_or_pos s.length with h | h
    · exact Or.inl h
    · right
      rw [List.length_drop]
      omega

/-- C9, witness: the bound and the strict shrink at the concrete input
`"aaaaaaaaaa"` with width 4. -/
theorem C9_wrap_terminates_bounded_witness :
    ((splitLine 4 ['a', 'a', 'a', 'a', 'a', 'a', 'a', 'a', 'a', 'a']).dropLast.all
      (fitsWidth 4)) = true ∧
    ((['a', 'a', 'a', 'a', 'a', 'a', 'a', 'a', 'a', 'a'] : List Char).length = 0 ∨
      ((['a', 'a', 'a', 'a', 'a', 'a', 'a', 'a', 'a', 'a'] : List Char).drop
        (findLastSpacePosition ['a', 'a', 'a', 'a', 'a', 'a', 'a', 'a', 'a', 'a'] 4 + 1)).length <
        (['a', 'a', 'a', 'a', 'a', 'a', 'a', 'a', 'a', 'a'] : List Char).length) :=
  C9_wrap_terminates_bounded ['a', 'a', 'a', 'a', 'a', 'a', 'a', 'a', 'a', 'a'] 4
    (by decide)

/-! ### Claims about the controller operations -/

/-- C1, counterexample: with buffer `["ab", "cd"]` and cursor `(0, 1)`, a
single `del()` moves up AND deletes — it yields buffer `["a", "cd"]` with
cursor `(1, 0)`, not the claimed unchanged buffer with cursor `(2, 0)`
(there is no early return after the move-up step in the source). -/
theorem C1_counterexample :
    del ⟨[⟨['a', 'b'], false⟩, ⟨['c', 'd'], false⟩], ⟨0, 1⟩, 80⟩ =
      some ⟨[⟨['a'], false⟩, ⟨['c', 'd'], false⟩], ⟨1, 0⟩, 80⟩ ∧
    del ⟨[⟨['a', 'b'], false⟩, ⟨['c', 'd'], false⟩], ⟨0, 1⟩, 80⟩ ≠
      some ⟨[⟨['a', 'b'], false⟩, ⟨['c', 'd'], false⟩], ⟨2, 0⟩, 80⟩ := by
  decide

/-- C1, amended: for every buffer state with `cursor.x = 0` and
`cursor.y > 0` (and a valid current line), a single `del()` moves the
cursor to the previous line AND removes that line's last character in the
same call: `cursor.y` is decremented, `cursor.x` becomes the previous
line's length minus one, and the previous line loses its last character. -/
theorem C1_del_at_line_start (s : Screen) (prev : Line)
    (hx : s.cursor.x = 0) (hy : 0 < s.cursor.y)
    (hlen : s.cursor.y.toNat < s.lines.length)
    (hprev : s.lines.get? (s.cursor.y - 1).toNat = some prev) :
    del s = some { s with
      lines := s.lines.set (s.cursor.y - 1).toNat
        { prev with textContent := prev.textContent.dropLast },
      cursor := ⟨(prev.textContent.length : Int) - 1, s.cursor.y - 1⟩ } := by
  obtain ⟨line, hline⟩ : ∃ l, s.lines.get? s.cursor.y.toNat = some l :=
    ⟨s.lines.get ⟨s.cursor.y.toNat, hlen⟩, List.get?_eq_some.mpr ⟨hlen, rfl⟩⟩
  unfold del getLine
  rw [if_neg (by omega : ¬ s.cursor.y < 0)]
  rw [hline, Option.some_bind]
  have hguard : ¬(line.isPrompt = true ∧ s.cursor.x = 3) := by
    rintro ⟨-, h3⟩
    rw [hx] at h3
    norm_num at h3
  rw [if_neg hguard, if_pos hx, if_neg (by omega : ¬ s.cursor.y = 0)]
  rw [if_neg (by omega : ¬ s.cursor.y - 1 < 0)]
  rw [hprev, Option.some_bind]
  unfold delCore getLine
  dsimp only
  rw [if_neg (by omega : ¬ s.cursor.y - 1 < 0)]
  rw [hprev, Option.some_bind]

/-- C1, witness: the amended behavior at buffer `["xy", "z"]`, cursor
`(0, 1)`. -/
theorem C1_del_at_line_start_witness :
    del ⟨[⟨['x', 'y'], false⟩, ⟨['z'], false⟩], ⟨0, 1⟩, 80⟩ =
      some ⟨[⟨['x'], false⟩, ⟨['z'], false⟩], ⟨1, 0⟩, 80⟩ :=
  C1_del_at_line_start ⟨[⟨['x', 'y'], false⟩, ⟨['z'], false⟩], ⟨0, 1⟩, 80⟩
    ⟨['x', 'y'], false⟩ (by decide) (by decide) (by decide) (by decide)

/-- C2, counterexample: on buffer `["a", "b"]`, `deleteln(0)` removes the
LAST line (the `!num` falsy test catches the index 0), leaving `["a"]`,
not the claimed `["b"]`. -/
theorem C2_counterexample :
    deleteln ⟨[⟨['a'], false⟩, ⟨['b'], false⟩], ⟨0, 0⟩, 80⟩ (some 0) =
      some ⟨[⟨['a'], false⟩], ⟨0, 0⟩, 80⟩ ∧
    deleteln ⟨[⟨['a'], false⟩, ⟨['b'], false⟩], ⟨0, 0⟩, 80⟩ (some 0) ≠
      some ⟨[⟨['b'], false⟩], ⟨0, 0⟩, 80⟩ := by
  decide

/-- C2, amended: `deleteln(n)` with `1 ≤ n < length` removes the line at
index `n` (shifting subsequent lines up); when the index is omitted,
equal to `0` (which is falsy), or `≥` the current length, it removes the
last line; `deleteln` on an empty buffer is a no-op. -/
theorem C2_deleteln_behavior :
    (∀ (s : Screen) (n : Int), 1 ≤ n → n < (s.lines.length : Int) →
      deleteln s (some n) = some { s with lines := s.lines.eraseIdx n.toNat }) ∧
    (∀ s : Screen, s.lines ≠ [] →
      deleteln s none =
        some { s with lines := s.lines.eraseIdx (s.lines.length - 1) }) ∧
    (∀ (s : Screen) (n : Int), s.lines ≠ [] →
      (n = 0 ∨ (s.lines.length : Int) ≤ n) →
      deleteln s (some n) =
        some { s with lines := s.lines.eraseIdx (s.lines.length - 1) }) ∧
    (∀ (s : Screen) (num : Option Int), s.lines = [] →
      deleteln s num = some s) := by
  refine ⟨?_, ?_, ?_, ?_⟩
  · intro s n h1 h2
    unfold deleteln
    rw [if_neg (by omega : ¬ s.lines.length = 0)]
    dsimp only
    rw [if_neg (by omega : ¬(n = 0 ∨ n ≥ (s.lines.length : Int)))]
    rw [if_neg (by omega : ¬ n < 0)]
  · intro s h
    unfold deleteln
    rw [if_neg (by simpa [List.length_eq_zero] using h)]
  · intro s n h hor
    unfold deleteln
    rw [if_neg (by simpa [List.length_eq_zero] using h)]
    dsimp only
    rw [if_pos (by omega : n = 0 ∨ n ≥ (s.lines.length : Int))]
  · intro s num h
    unfold deleteln
    rw [if_pos (by simpa [List.length_eq_zero] using h)]

/-- C2, witness: the amended behaviors on the concrete buffer
`["p", "q", "r"]`: `deleteln(1)` removes `"q"`; omitted index and index
`0` and index `5` each remove the last line; `deleteln` on the empty
buffer is a no-op. -/
theorem C2_deleteln_behavior_witness :
    deleteln ⟨[⟨['p'], false⟩, ⟨['q'], false⟩, ⟨['r'], false⟩], ⟨0, 0⟩, 80⟩ (some 1) =
      some ⟨[⟨['p'], false⟩, ⟨['r'], false⟩], ⟨0, 0⟩, 80⟩ ∧
    deleteln ⟨[⟨['p'], false⟩, ⟨['q'], false⟩, ⟨['r'], false⟩], ⟨0, 0⟩, 80⟩ none =
      some ⟨[⟨['p'], false⟩, ⟨['q'], false⟩], ⟨0, 0⟩, 80⟩ ∧
    deleteln ⟨[⟨['p'], false⟩, ⟨['q'], false⟩, ⟨['r'], false⟩], ⟨0, 0⟩, 80⟩ (some 0) =
      some ⟨[⟨['p'], false⟩, ⟨['q'], false⟩], ⟨0, 0⟩, 80⟩ ∧
    deleteln ⟨[], ⟨-1, -1⟩, 80⟩ (some 5) = some ⟨[], ⟨-1, -1⟩, 80⟩ :=
  ⟨C2_deleteln_behavior.1 ⟨[⟨['p'], false⟩, ⟨['q'], false⟩, ⟨['r'], false⟩], ⟨0, 0⟩, 80⟩ 1
      (by decide) (by decide),
   C2_deleteln_behavior.2.1 ⟨[⟨['p'], false⟩, ⟨['q'], false⟩, ⟨['r'], false⟩], ⟨0, 0⟩, 80⟩
      (by decide),
   C2_deleteln_behavior.2.2.1 ⟨[⟨['p'], false⟩, ⟨['q'], false⟩, ⟨['r'], false⟩], ⟨0, 0⟩, 80⟩ 0
      (by decide) (by decide),
   C2_deleteln_behavior.2.2.2 ⟨[], ⟨-1, -1⟩, 80⟩ (some 5) (by decide)⟩

/-- C3: `write` creates missing lines only when `cursor.y` is STRICTLY
greater than `lines.length`; at `cursor.y = lines.length` (the first
position beyond the last existing line) it reads `lines[cursor.y]`,
which does not exist, and fails — here evaluated at buffer `["ab"]` with
cursor `(0, 1)`, while the same write at cursor `(0, 2)` does create the
missing lines and succeeds. -/
theorem C3_write_beyond_buffer :
    write ⟨[⟨['a', 'b'], false⟩], ⟨0, 1⟩, 80⟩ ['x'] = none ∧
    write ⟨[⟨['a', 'b'], false⟩], ⟨0, 2⟩, 80⟩ ['x'] =
      some ⟨[⟨['a', 'b'], false⟩, ⟨[], false⟩, ⟨['x'], false⟩], ⟨1, 2⟩, 80⟩ := by
  decide

/-- C6, counterexample: `write` is not idempotent — from the empty screen,
applying `write("a")` twice yields a different state (`"aa"`, cursor
`(2,0)`) than applying it once (`"a"`, cursor `(1,0)`). -/
theorem C6_counterexample :
    (write ⟨[], ⟨-1, -1⟩, 80⟩ ['a']).bind (fun t => write t ['a']) ≠
      write ⟨[], ⟨-1, -1⟩, 80⟩ ['a'] := by
  decide

/-- C6, amended: every controller operation (`write`, `writechar`,
`writeln`, `prompt`, `del`, `deleteln`, `clear`) is deterministic — two
runs of the same call from identical buffer/cursor state produce
identical resulting states — and `clear` is idempotent; but the writing
and deleting operations are not idempotent in general. -/
theorem C6_deterministic :
    (∀ (s : Screen) (chars : List Char), write s chars = write s chars) ∧
    (∀ (s : Screen) (chars : List Char), writechar s chars = writechar s chars) ∧
    (∀ (s : Screen) (chars : List Char), writeln s chars = writeln s chars) ∧
    (∀ s : Screen, prompt s = prompt s) ∧
    (∀ s : Screen, del s = del s) ∧
    (∀ (s : Screen) (num : Option Int), deleteln s num = deleteln s num) ∧
    (∀ s : Screen, clear s = clear s) ∧
    (∀ s : Screen, clear (clear s) = clear s) :=
  ⟨fun _ _ => rfl, fun _ _ => rfl, fun _ _ => rfl, fun _ => rfl,
   fun _ => rfl, fun _ _ => rfl, fun _ => rfl, fun _ => rfl⟩

/-- C7: for every buffer state, `prompt()` followed by `del()` is a no-op
on the prompt state: the current line is tagged `prompt` and
`cursor.x = 3`, so `del` returns the state unchanged. -/
theorem C7_prompt_then_del_noop (s : Screen) : del (prompt s) = some (prompt s) := by
  have hy : (prompt s).cursor.y = (s.lines.length : Int) := by
    simp [prompt]
  have hget : getLine (prompt s) ((s.lines.length : Int)) =
      some ⟨List.replicate 3 ' ', true⟩ := by
    unfold getLine
    rw [if_neg (by omega : ¬ (s.lines.length : Int) < 0)]
    rw [Int.toNat_ofNat]
    show (s.lines ++ [(⟨List.replicate 3 ' ', true⟩ : Line)]).get? s.lines.length =
      some ⟨List.replicate 3 ' ', true⟩
    rw [List.get?_eq_getElem?]
    exact List.getElem?_concat_length _ _
  unfold del
  rw [hy, hget, Option.some_bind]
  rw [if_pos ⟨rfl, rfl⟩]

/-- C8: when `cursor.x` exceeds the current line's content length, `write`
first pads the line with spaces up to `cursor.x` and inserts the text
there, advancing `cursor.x` by the text length: if the padded-and-extended
line fits in `cols` it replaces the line in place, and otherwise that very
padded-and-extended string is what gets reflowed.  In particular writing
`"x"` at `cursor.x = 5` on the 2-character line `"ab"` yields the line
`"ab   x"` and `cursor.x = 6` (see the witness). -/
theorem C8_write_pads (s : Screen) (chars : List Char) (line : Line)
    (hc : chars ≠ [])
    (hy0 : 0 ≤ s.cursor.y)
    (hline : s.lines.get? s.cursor.y.toNat = some line)
    (hx : (line.textContent.length : Int) < s.cursor.x) :
    (s.cursor.x + (chars.length : Int) ≤ (s.cols : Int) →
      write s chars = some { s with
        lines := s.lines.set s.cursor.y.toNat
          ⟨(line.textContent ++
            List.replicate (s.cursor.x - line.textContent.length).toNat ' ') ++ chars,
           line.isPrompt⟩,
        cursor := ⟨s.cursor.x + (chars.length : Int), s.cursor.y⟩ }) ∧
    ((s.cols : Int) < s.cursor.x + (chars.length : Int) →
      write s chars = some { s with
        lines := (reflowLoop 0
          (splitLine s.cols ((line.textContent ++
            List.replicate (s.cursor.x - line.textContent.length).toNat ' ') ++ chars))
          (s.lines.eraseIdx s.cursor.y.toNat) s.cursor.y
          (s.cursor.x + (chars.length : Int))).1,
        cursor := ⟨(reflowLoop 0
          (splitLine s.cols ((line.textContent ++
            List.replicate (s.cursor.x - line.textContent.length).toNat ' ') ++ chars))
          (s.lines.eraseIdx s.cursor.y.toNat) s.cursor.y
          (s.cursor.x + (chars.length : Int))).2.2,
          (reflowLoop 0
          (splitLine s.cols ((line.textContent ++
            List.replicate (s.cursor.x - line.textContent.length).toNat ' ') ++ chars))
          (s.lines.eraseIdx s.cursor.y.toNat) s.cursor.y
          (s.cursor.x + (chars.length : Int))).2.1 - 1⟩ }) := by
  have hx0 : (0 : Int) ≤ s.cursor.x :=
    le_trans (Int.natCast_nonneg _) (le_of_lt hx)
  have hylen : s.cursor.y.toNat < s.lines.length := (List.get?_eq_some.mp hline).1
  have hylt : s.cursor.y < (s.lines.length : Int) := by omega
  have hplen : (line.textContent ++
      List.replicate (s.cursor.x - (line.textContent.length : Int)).toNat ' ').length =
      s.cursor.x.toNat := by
    rw [List.length_append, List.length_replicate]
    omega
  constructor
  · intro hfit
    simp only [write]
    rw [if_neg hc]
    rw [if_neg (by omega : ¬ s.cursor.x < 0)]
    rw [if_neg (by omega : ¬ s.cursor.y > (s.lines.length : Int))]
    unfold getLine
    rw [if_neg (by omega : ¬ s.cursor.y < 0)]
    rw [hline, Option.some_bind]
    rw [if_pos hx]
    rw [List.take_of_length_le (le_of_eq hplen)]
    rw [List.drop_eq_nil_of_le (le_of_eq hplen)]
    rw [List.append_nil]
    rw [hplen]
    rw [if_pos (by rw [List.length_append, hplen]; omega :
      ((line.textContent ++
        List.replicate (s.cursor.x - (line.textContent.length : Int)).toNat ' ') ++
        chars).length ≤ s.cols)]
  · intro hover
    simp only [write]
    rw [if_neg hc]
    rw [if_neg (by omega : ¬ s.cursor.x < 0)]
    rw [if_neg (by omega : ¬ s.cursor.y > (s.lines.length : Int))]
    unfold getLine
    rw [if_neg (by omega : ¬ s.cursor.y < 0)]
    rw [hline, Option.some_bind]
    rw [if_pos hx]
    rw [List.take_of_length_le (le_of_eq hplen)]
    rw [List.drop_eq_nil_of_le (le_of_eq hplen)]
    rw [List.append_nil]
    rw [hplen]
    rw [Nat.sub_self]
    rw [if_neg (by rw [List.length_append, hplen]; omega :
      ¬ ((line.textContent ++
        List.replicate (s.cursor.x - (line.textContent.length : Int)).toNat ' ') ++
        chars).length ≤ s.cols)]

/-- C8, witness: writing `"x"` at `cursor.x = 5` on the 2-character line
`"ab"` (with `cols = 80`) yields the line `"ab   x"` — three padding
spaces — and `cursor.x = 6`. -/
theorem C8_write_pads_witness :
    write ⟨[⟨['a', 'b'], false⟩], ⟨5, 0⟩, 80⟩ ['x'] =
      some ⟨[⟨['a', 'b', ' ', ' ', ' ', 'x'], false⟩], ⟨6, 0⟩, 80⟩ :=
  (C8_write_pads ⟨[⟨['a', 'b'], false⟩], ⟨5, 0⟩, 80⟩ ['x'] ⟨['a', 'b'], false⟩
    (by decide) (by decide) (by decide) (by decide)).1 (by decide)

/-- C10: `del()` on the empty buffer with the cursor at the sentinel
`(-1, -1)` fails (the prompt-guard reads the line at index `-1`, which
does not exist) rather than being a no-op; and under the precondition
that the buffer is non-empty with `0 ≤ cursor.y < buffer length`, `del()`
always succeeds — no access in it can fail. -/
theorem C10_del_totality :
    (del ⟨[], ⟨-1, -1⟩, 80⟩ = none) ∧
    (∀ s : Screen, 0 ≤ s.cursor.y → s.cursor.y.toNat < s.lines.length →
      (del s).isSome = true) := by
  constructor
  · decide
  · intro s hy0 hylen
    obtain ⟨line, hline⟩ : ∃ l, s.lines.get? s.cursor.y.toNat = some l :=
      ⟨s.lines.get ⟨s.cursor.y.toNat, hylen⟩, List.get?_eq_some.mpr ⟨hylen, rfl⟩⟩
    unfold del getLine
    rw [if_neg (by omega : ¬ s.cursor.y < 0)]
    rw [hline, Option.some_bind]
    by_cases hguard : line.isPrompt = true ∧ s.cursor.x = 3
    · rw [if_pos hguard]
      rfl
    · rw [if_neg hguard]
      by_cases hx : s.cursor.x = 0
      · rw [if_pos hx]
        by_cases hy : s.cursor.y = 0
        · rw [if_pos hy]
          rfl
        · rw [if_neg hy]
          have hprevlen : (s.cursor.y - 1).toNat < s.lines.length := by omega
          obtain ⟨prev, hprev⟩ : ∃ l, s.lines.get? (s.cursor.y - 1).toNat = some l :=
            ⟨s.lines.get ⟨(s.cursor.y - 1).toNat, hprevlen⟩,
              List.get?_eq_some.mpr ⟨hprevlen, rfl⟩⟩
          rw [if_neg (by omega : ¬ s.cursor.y - 1 < 0)]
          rw [hprev, Option.some_bind]
          unfold delCore getLine
          dsimp only
          rw [if_neg (by omega : ¬ s.cursor.y - 1 < 0)]
          rw [hprev, Option.some_bind]
          rfl
      · rw [if_neg hx]
        unfold delCore getLine
        rw [if_neg (by omega : ¬ s.cursor.y < 0)]
        rw [hline, Option.some_bind]
        rfl

/-- C10, witness: `del` succeeds on the valid one-line state with cursor
`(1, 0)`. -/
theorem C10_del_totality_witness :
    (del ⟨[⟨['a', 'b'], false⟩], ⟨1, 0⟩, 80⟩).isSome = true :=
  C10_del_totality.2 ⟨[⟨['a', 'b'], false⟩], ⟨1, 0⟩, 80⟩ (by decide) (by decide)

end Tatty
